import Mathlib

/-!
Shallow embedding of the Conversation Memory Manager of
`src/memory_manager.py` (tiered persistence: Redis fast cache →
MongoDB durable store → in-process fallback dict), together with
theorems settling the frozen claims about it.

Modelling conventions:
  * The module-level mutable context (`_redis_client` availability,
    `_mongo_collection` availability, the Redis key space, the Mongo
    `conversations` collection and the `_local_conversations` dict) is a
    `St` record threaded explicitly through each operation.
  * Python exceptions raised by a tier's I/O are modelled by the
    per-tier flags `redisOpFails` / `mongoOpFails` (an operation on that
    tier raises, and the `except` handler of the source catches it) and,
    for deserialisation, by the `RVal.bad` constructor (`json.loads`
    raises on that record).  An unobtainable client
    (`get_redis_client()` / `get_mongo_collection()` returning `None`)
    is the flag `redisAvail` / `mongoAvail` set to `false`.
  * `datetime.now(timezone.utc)` is modelled by the counter `now`,
    incremented once per `save_conversation` call: real wall-clock
    timestamps taken at successive call sites are strictly increasing at
    the resolution the code relies on for its `sort("timestamp", -1)`.
  * Mongo's `_id` is modelled by a `Nat` drawn from the counter
    `nextId`.
  * `ts.strftime("%b %d, %H:%M")` is rendered by `strftimeShort`; no
    claim depends on the text of the rendering, only on which tier
    produced it, so the calendar arithmetic is not reproduced.
-/

/-- One stored conversation record, as serialised into Redis and the
local fallback dict: `{"user_message": ..., "ai_response": ...,
"timestamp": ...}`. -/
structure Rec where
  user_message : String
  ai_response : String
  timestamp : Nat
deriving DecidableEq, Repr

/-- A value held in a Redis list: either a well-formed serialised
record, or a malformed one on which `json.loads` raises. -/
inductive RVal where
  | good (r : Rec)
  | bad
deriving DecidableEq, Repr

/-- A document of the Mongo `conversations` collection:
`{_id, user_id, user_message, ai_response, timestamp}`. -/
structure MDoc where
  _id : Nat
  user_id : String
  user_message : String
  ai_response : String
  timestamp : Nat
deriving DecidableEq, Repr

/-- A `{"role": ..., "content": ...}` message produced by
`get_context_history`. -/
structure Ctx where
  role : String
  content : String
deriving DecidableEq, Repr

/-- The tier whose branch of the precedence ladder produced a read
result. -/
inductive Tier where
  | redis
  | mongo
  | fallback
deriving DecidableEq, Repr

/-- The module-level state of `memory_manager.py`, plus the two
external stores, threaded explicitly. -/
structure St where
  /-- `get_redis_client()` returns a client (connection established). -/
  redisAvail : Bool
  /-- operations on the Redis client raise for this call. -/
  redisOpFails : Bool
  /-- `get_mongo_collection()` returns a collection. -/
  mongoAvail : Bool
  /-- operations on the Mongo collection raise for this call. -/
  mongoOpFails : Bool
  /-- the Redis key space: full key (`"conversation:" ++ user_id`) to
  list value, newest first; a missing key is the empty list. -/
  redis : String → List RVal
  /-- the Mongo `conversations` collection, in insertion order. -/
  mongo : List MDoc
  /-- `_local_conversations`: user_id to records, oldest first. -/
  local_conversations : String → List Rec
  /-- the UTC clock as sampled by `datetime.now(timezone.utc)`. -/
  now : Nat
  /-- the next Mongo `_id`. -/
  nextId : Nat

/-- The Redis key `f"conversation:{user_id}"`. -/
def convKey (user_id : String) : String := "conversation:" ++ user_id

/-- Whether a Redis operation issued now succeeds (client obtained and
the call does not raise). -/
def redisEff (st : St) : Bool := st.redisAvail && !st.redisOpFails

/-- Whether a Mongo operation issued now succeeds. -/
def mongoEff (st : St) : Bool := st.mongoAvail && !st.mongoOpFails

/-- `_local_append`: `_local_conversations.setdefault(user_id, []).append({...})`. -/
def local_append (st : St) (user_id user_msg ai_msg : String) (timestamp : Nat) : St :=
  { st with
    local_conversations := fun k =>
      if k = user_id then st.local_conversations user_id ++ [⟨user_msg, ai_msg, timestamp⟩]
      else st.local_conversations k }

/-- `_local_get_recent`: `items[-limit:]` for positive `limit`, else `[]`
(the Python guard is `limit <= 0`; `limit` is embedded as `Nat`). -/
def local_get_recent (st : St) (user_id : String) (limit : Nat) : List Rec :=
  let items := st.local_conversations user_id
  if limit = 0 then [] else items.drop (items.length - limit)

/-- `save_conversation(user_id, user_msg, ai_msg)`: best-effort LPUSH to
Redis, best-effort `insert_one` to Mongo, local fallback append when
both failed; returns `saved_any`. -/
def save_conversation (st : St) (user_id user_msg ai_msg : String) : Bool × St :=
  let timestamp := st.now
  -- Redis (best-effort): r.lpush(f"conversation:{user_id}", json.dumps(payload))
  let (savedR, st1) :=
    if st.redisAvail then
      if st.redisOpFails then (false, st)
      else
        (true,
          { st with
            redis := fun k =>
              if k = convKey user_id then
                RVal.good ⟨user_msg, ai_msg, timestamp⟩ :: st.redis (convKey user_id)
              else st.redis k })
    else (false, st)
  -- Mongo (source-of-truth): col.insert_one({...})
  let (savedM, st2) :=
    if st1.mongoAvail then
      if st1.mongoOpFails then (false, st1)
      else
        (true,
          { st1 with
            mongo := st1.mongo ++ [⟨st1.nextId, user_id, user_msg, ai_msg, timestamp⟩],
            nextId := st1.nextId + 1 })
    else (false, st1)
  let saved_any := savedR || savedM
  -- Local fallback: if not saved_any: _local_append(...); saved_any = True
  if saved_any then (saved_any, { st2 with now := st2.now + 1 })
  else (true, { local_append st2 user_id user_msg ai_msg timestamp with now := st2.now + 1 })

/-- Deserialise a list of raw Redis values: `json.loads` on each item of
the fetched range; any malformed item raises, aborting the whole `try`
block (`none`). -/
def decodeAll : List RVal → Option (List Rec)
  | [] => some []
  | RVal.bad :: _ => none
  | RVal.good r :: rest => (decodeAll rest).map (fun rs => r :: rs)

/-- Expansion of one stored record into its two context messages, in
(user, assistant) order, with the `d.get(..., "")` defaults. -/
def pairEntries (r : Rec) : List Ctx :=
  [⟨"user", r.user_message⟩, ⟨"assistant", r.ai_response⟩]

/-- Expansion of a chronological list of records into context messages. -/
def historyOf (rs : List Rec) : List Ctx := rs.flatMap pairEntries

/-- `_get_context_from_mongo`:
`col.find({"user_id": user_id}).sort("timestamp", -1).limit(limit)`,
then reversed and expanded; `[]` when the collection is unavailable or
the read raises. -/
def insertDesc (d : MDoc) : List MDoc → List MDoc
  | [] => [d]
  | e :: rest => if d.timestamp ≤ e.timestamp then e :: insertDesc d rest else d :: e :: rest

/-- The Mongo server's `sort("timestamp", -1)` over a result set. -/
def sortDesc : List MDoc → List MDoc
  | [] => []
  | d :: rest => insertDesc d (sortDesc rest)

/-- `col.find({"user_id": user_id}).sort("timestamp", -1).limit(limit)`:
the documents of the user, newest first, truncated to `limit`. -/
def mongoFindRecent (docs : List MDoc) (user_id : String) (limit : Nat) : List MDoc :=
  (sortDesc (docs.filter (fun d => d.user_id == user_id))).take limit

/-- `col.find_one({"user_id": user_id}, sort=[("timestamp", -1)])`. -/
def mongoFindLatest (docs : List MDoc) (user_id : String) : Option MDoc :=
  (sortDesc (docs.filter (fun d => d.user_id == user_id))).head?

/-- `col.delete_one({"_id": i})`: remove the document carrying `_id = i`
(the first occurrence; Mongo `_id`s are unique, see `C10`). -/
def deleteOneById : List MDoc → Nat → List MDoc
  | [], _ => []
  | d :: rest, i => if d._id = i then rest else d :: deleteOneById rest i

/-- `_get_context_from_mongo(user_id, limit)`. -/
def get_context_from_mongo (st : St) (user_id : String) (limit : Nat) : List Ctx :=
  if st.mongoAvail then
    if st.mongoOpFails then []
    else
      let rows := mongoFindRecent st.mongo user_id limit
      historyOf (rows.reverse.map (fun r => ⟨r.user_message, r.ai_response, r.timestamp⟩))
  else []

/-- The shared Redis read of both read paths:
`r.lrange(f"conversation:{user_id}", 0, max(0, limit - 1))` followed by
`json.loads` on each item; `none` when the client is unobtainable, the
range-read raises, or any item is malformed (the `except` of the caller
catches it). -/
def redisReadRecs (st : St) (user_id : String) (limit : Nat) : Option (List Rec) :=
  if redisEff st then decodeAll ((st.redis (convKey user_id)).take limit)
  else none

/-- `get_context_history(user_id, limit)`: Redis → Mongo → local.  The
second component records which tier's branch returned the result
(`none` for the `limit <= 0` early return). -/
def get_context_history (st : St) (user_id : String) (limit : Nat) :
    List Ctx × Option Tier :=
  if limit = 0 then ([], none)
  else
    -- Redis: lrange 0 .. limit-1 (newest→older), reversed, expanded;
    -- any exception in the try block (transport or json.loads) falls through
    let redisResult : Option (List Ctx) :=
      (redisReadRecs st user_id limit).map (fun rs => historyOf rs.reverse)
    match redisResult with
    | some history => (history, some Tier.redis)
    | none =>
      let mongo_hist := get_context_from_mongo st user_id limit
      if mongo_hist.isEmpty then
        (historyOf (local_get_recent st user_id limit), some Tier.fallback)
      else (mongo_hist, some Tier.mongo)

/-- Stand-in for `ts.strftime("%b %d, %H:%M")`; no claim depends on the
rendered text. -/
def strftimeShort (ts : Nat) : String := toString ts

/-- Display tuple `(user_message, ai_response, timestamp_str)`. -/
def displayOf (r : Rec) : String × String × String :=
  (r.user_message, r.ai_response, strftimeShort r.timestamp)

/-- `load_recent_conversations(user_id, limit)`: same three branches,
newest first, display tuples; the second component records the
answering tier. -/
def load_recent_conversations (st : St) (user_id : String) (limit : Nat) :
    List (String × String × String) × Option Tier :=
  if limit = 0 then ([], none)
  else
    -- Redis first: lrange, json.loads each (raises on a malformed item,
    -- aborting the try block), newest→oldest, no reversal
    let redisResult : Option (List (String × String × String)) :=
      (redisReadRecs st user_id limit).map (fun rs => rs.map displayOf)
    match redisResult with
    | some results => (results, some Tier.redis)
    | none =>
      -- Mongo fallback: a successful find returns its rows even when empty
      if mongoEff st then
        let rows := mongoFindRecent st.mongo user_id limit
        (rows.map (fun r => (r.user_message, r.ai_response, strftimeShort r.timestamp)),
          some Tier.mongo)
      else
        -- Local fallback: stored oldest→newest, reversed ⇒ newest→oldest
        (((local_get_recent st user_id limit).reverse).map displayOf, some Tier.fallback)

/-- `delete_last_conversation(user_id)`. -/
def delete_last_conversation (st : St) (user_id : String) : Bool × St :=
  -- Redis: lpop removes newest
  let (deletedR, st1) :=
    if st.redisAvail then
      if st.redisOpFails then (false, st)
      else
        match st.redis (convKey user_id) with
        | [] => (false, st)
        | _ :: rest =>
          (true,
            { st with
              redis := fun k => if k = convKey user_id then rest else st.redis k })
    else (false, st)
  -- Mongo: find_one latest by timestamp, delete_one by _id
  let (deletedM, st2) :=
    if st1.mongoAvail then
      if st1.mongoOpFails then (false, st1)
      else
        match mongoFindLatest st1.mongo user_id with
        | none => (false, st1)
        | some latest => (true, { st1 with mongo := deleteOneById st1.mongo latest._id })
    else (false, st1)
  let deleted_any := deletedR || deletedM
  -- Local fallback: only if no external deletion and the list is truthy
  if !deleted_any && !(st2.local_conversations user_id).isEmpty then
    (true,
      { st2 with
        local_conversations := fun k =>
          if k = user_id then (st2.local_conversations user_id).dropLast
          else st2.local_conversations k })
  else (deleted_any, st2)

/-- `clear_all_history(user_id)`. -/
def clear_all_history (st : St) (user_id : String) : St :=
  -- Redis: r.delete(f"conversation:{user_id}")
  let st1 :=
    if st.redisAvail && !st.redisOpFails then
      { st with redis := fun k => if k = convKey user_id then [] else st.redis k }
    else st
  -- Mongo: col.delete_many({"user_id": user_id})
  let st2 :=
    if st1.mongoAvail && !st1.mongoOpFails then
      { st1 with mongo := st1.mongo.filter (fun d => !(d.user_id == user_id)) }
    else st1
  -- Local: _local_conversations.pop(user_id, None)
  { st2 with
    local_conversations := fun k =>
      if k = user_id then [] else st2.local_conversations k }

/-! ### Helper lemmas -/

theorem historyOf_append (a b : List Rec) :
    historyOf (a ++ b) = historyOf a ++ historyOf b := by
  simp [historyOf]

theorem length_historyOf (rs : List Rec) :
    (historyOf rs).length = 2 * rs.length := by
  induction rs with
  | nil => simp [historyOf]
  | cons r rest ih =>
    simp [historyOf, pairEntries] at ih ⊢
    omega

theorem decodeAll_map_good (rs : List Rec) :
    decodeAll (rs.map RVal.good) = some rs := by
  induction rs with
  | nil => rfl
  | cons r rest ih => simp [decodeAll, ih]

theorem local_get_recent_all (st : St) (u : String) (k : Nat)
    (hk : (st.local_conversations u).length ≤ k) (hk0 : 0 < k) :
    local_get_recent st u k = st.local_conversations u := by
  unfold local_get_recent
  have : ¬ k = 0 := by omega
  simp [this, Nat.sub_eq_zero_of_le hk]

/-- C9: for every state and inputs, `save_conversation` returns `True`: the
`False` outcome is unreachable, because whenever both external writes
fail the local fallback append runs and always succeeds. -/
theorem save_always_true (st : St) (u um am : String) :
    (save_conversation st u um am).1 = true := by
  cases hra : st.redisAvail <;> cases hrf : st.redisOpFails <;>
    cases hma : st.mongoAvail <;> cases hmf : st.mongoOpFails <;>
      simp [save_conversation, hra, hrf, hma, hmf]

/-- C7: `delete_last_conversation` on a user with zero stored history in
every tier returns `False` and leaves the state unchanged (no deletion
in any tier; exceptions are all caught internally). -/
theorem delete_last_empty_noop (st : St) (u : String)
    (hr : st.redis (convKey u) = [])
    (hm : st.mongo.filter (fun d => d.user_id == u) = [])
    (hl : st.local_conversations u = []) :
    delete_last_conversation st u = (false, st) := by
  have hlatest : mongoFindLatest st.mongo u = none := by
    simp [mongoFindLatest, hm, sortDesc]
  cases hra : st.redisAvail <;> cases hrf : st.redisOpFails <;>
    cases hma : st.mongoAvail <;> cases hmf : st.mongoOpFails <;>
      simp [delete_last_conversation, hra, hrf, hma, hmf, hr, hlatest, hl]

theorem delete_last_empty_noop_witness :
    let st : St :=
      { redisAvail := true, redisOpFails := false, mongoAvail := true,
        mongoOpFails := false, redis := fun _ => [], mongo := [],
        local_conversations := fun _ => [], now := 0, nextId := 0 }
    delete_last_conversation st "alice" = (false, st) :=
  delete_last_empty_noop _ "alice" rfl rfl rfl

theorem get_context_from_mongo_ineff (st : St) (u : String) (k : Nat)
    (hm : mongoEff st = false) :
    get_context_from_mongo st u k = [] := by
  unfold mongoEff at hm
  cases hma : st.mongoAvail <;> cases hmf : st.mongoOpFails <;>
    simp_all [get_context_from_mongo]

theorem get_context_fallback (st : St) (u : String) (k : Nat) (hk : 0 < k)
    (hr : redisEff st = false) (hm : mongoEff st = false) :
    get_context_history st u k
      = (historyOf (local_get_recent st u k), some Tier.fallback) := by
  have hk' : ¬ k = 0 := by omega
  simp [get_context_history, redisReadRecs, hk', hr,
    get_context_from_mongo_ineff st u k hm]

/-- C3: if the cache tier is reachable and its range-read (including
deserialisation) succeeds, `get_context_history` returns the
cache-derived result — also when it is empty — and that result is
independent of the durable store and the fallback store; only an
unreachable or failing cache falls through. -/
theorem cache_result_final (st : St) (u : String) (k : Nat) (hk : 0 < k)
    (ha : st.redisAvail = true) (hf : st.redisOpFails = false)
    (rs : List Rec)
    (hdec : decodeAll ((st.redis (convKey u)).take k) = some rs) :
    get_context_history st u k = (historyOf rs.reverse, some Tier.redis) ∧
    ∀ (m : List MDoc) (mA mF : Bool) (lc : String → List Rec),
      get_context_history
        { st with mongo := m, mongoAvail := mA, mongoOpFails := mF,
                  local_conversations := lc } u k
        = get_context_history st u k := by
  have hk' : ¬ k = 0 := by omega
  constructor
  · simp [get_context_history, redisReadRecs, hk', redisEff, ha, hf, hdec]
  · intro m mA mF lc
    simp [get_context_history, redisReadRecs, hk', redisEff, ha, hf, hdec]

def stCacheEmpty : St :=
  { redisAvail := true, redisOpFails := false, mongoAvail := true,
    mongoOpFails := false, redis := fun _ => [],
    mongo := [⟨0, "alice", "x", "y", 0⟩],
    local_conversations := fun _ => [⟨"p", "q", 0⟩], now := 1, nextId := 1 }

theorem cache_result_final_witness :
    0 < 5 ∧ get_context_history stCacheEmpty "alice" 5 = ([], some Tier.redis) :=
  ⟨by decide, (cache_result_final stCacheEmpty "alice" 5 (by decide) rfl rfl [] rfl).1⟩

theorem save_both_fail (st : St) (u um am : String)
    (hr : st.redisAvail = false ∨ st.redisOpFails = true)
    (hm : st.mongoAvail = false ∨ st.mongoOpFails = true) :
    save_conversation st u um am
      = (true, { local_append st u um am st.now with now := st.now + 1 }) := by
  rcases hr with hr | hr <;> rcases hm with hm | hm <;>
    cases hra : st.redisAvail <;> cases hrf : st.redisOpFails <;>
      cases hma : st.mongoAvail <;> cases hmf : st.mongoOpFails <;>
        simp_all [save_conversation, local_append]

/-- C1: when both external tiers are unavailable (client unobtainable or
operation raising) for the call, `save_conversation` writes the turn to
the in-process fallback store and returns `True`, and a subsequent
`get_context_history` in the same process with sufficient limit returns
that turn's two entries (as the final two messages of the history). -/
theorem total_outage_fallback (st : St) (u um am : String)
    (hr : st.redisAvail = false ∨ st.redisOpFails = true)
    (hm : st.mongoAvail = false ∨ st.mongoOpFails = true) :
    (save_conversation st u um am).1 = true ∧
    ((save_conversation st u um am).2).local_conversations u
      = st.local_conversations u ++ [⟨um, am, st.now⟩] ∧
    ∀ k, (st.local_conversations u).length + 1 ≤ k →
      (get_context_history (save_conversation st u um am).2 u k).1
        = historyOf (st.local_conversations u ++ [⟨um, am, st.now⟩]) ∧
      ((get_context_history (save_conversation st u um am).2 u k).1).drop
          (2 * (st.local_conversations u).length)
        = pairEntries ⟨um, am, st.now⟩ := by
  have hsave := save_both_fail st u um am hr hm
  rw [hsave]
  refine ⟨rfl, by simp [local_append], ?_⟩
  intro k hk
  set st' : St := { local_append st u um am st.now with now := st.now + 1 } with hst'
  have hrEff : redisEff st' = false := by
    rcases hr with h | h <;> simp [redisEff, hst', local_append, h]
  have hmEff : mongoEff st' = false := by
    rcases hm with h | h <;> simp [mongoEff, hst', local_append, h]
  have hloc : st'.local_conversations u
      = st.local_conversations u ++ [⟨um, am, st.now⟩] := by
    simp [hst', local_append]
  have hctx := get_context_fallback st' u k (by omega) hrEff hmEff
  have hrec : local_get_recent st' u k
      = st.local_conversations u ++ [⟨um, am, st.now⟩] := by
    rw [local_get_recent_all st' u k ?_ (by omega)] <;> rw [hloc]
    simp; omega
  rw [hctx, hrec]
  constructor
  · rfl
  · rw [historyOf_append]
    have hlen : 2 * (st.local_conversations u).length
        = (historyOf (st.local_conversations u)).length := by
      rw [length_historyOf]
    rw [hlen, List.drop_left]
    simp [historyOf, pairEntries]

def stOutage : St :=
  { redisAvail := false, redisOpFails := false, mongoAvail := true,
    mongoOpFails := true, redis := fun _ => [], mongo := [],
    local_conversations := fun _ => [], now := 0, nextId := 0 }

theorem total_outage_fallback_witness :
    (save_conversation stOutage "carol" "hi" "hello").1 = true ∧
    ((save_conversation stOutage "carol" "hi" "hello").2).local_conversations "carol"
      = [⟨"hi", "hello", 0⟩] ∧
    (get_context_history (save_conversation stOutage "carol" "hi" "hello").2 "carol" 5).1
      = [⟨"user", "hi"⟩, ⟨"assistant", "hello"⟩] := by
  have h := total_outage_fallback stOutage "carol" "hi" "hello"
    (Or.inl rfl) (Or.inr rfl)
  exact ⟨h.1, h.2.1, by
    have := (h.2.2 5 (by decide)).1
    simpa [stOutage, historyOf, pairEntries] using this⟩

/-! ### Saving a sequence of turns from a fresh process (C2) -/

/-- A fixed availability configuration of the two external tiers, held
constant across a scenario. -/
structure Cfg where
  rA : Bool
  rF : Bool
  mA : Bool
  mF : Bool

/-- The state of a fresh process under configuration `c`: no stored
data anywhere, clock and id counter at zero. -/
def initSt (c : Cfg) : St :=
  { redisAvail := c.rA, redisOpFails := c.rF, mongoAvail := c.mA,
    mongoOpFails := c.mF, redis := fun _ => [], mongo := [],
    local_conversations := fun _ => [], now := 0, nextId := 0 }

/-- Save a list of `(user_msg, ai_msg)` turns in order for one user. -/
def saveTurns (st : St) (u : String) : List (String × String) → St
  | [] => st
  | p :: rest => saveTurns (save_conversation st u p.1 p.2).2 u rest

/-- The records produced by saving `msgs` starting at clock `n`. -/
def recsFrom (n : Nat) : List (String × String) → List Rec
  | [] => []
  | p :: rest => ⟨p.1, p.2, n⟩ :: recsFrom (n + 1) rest

/-- The Mongo document a record inserts as, from a fresh process (the
`_id` counter tracks the clock). -/
def docOf (u : String) (r : Rec) : MDoc :=
  ⟨r.timestamp, u, r.user_message, r.ai_response, r.timestamp⟩

/-- The state reached after saving the records `rs` for user `u` from a
fresh process under configuration `c`: each tier holds the records
exactly when its writes succeed, the fallback exactly when neither
external write does. -/
def shapeSt (c : Cfg) (u : String) (rs : List Rec) (n : Nat) : St :=
  { redisAvail := c.rA, redisOpFails := c.rF, mongoAvail := c.mA,
    mongoOpFails := c.mF,
    redis := fun k =>
      if (c.rA && !c.rF) = true ∧ k = convKey u then rs.reverse.map RVal.good else [],
    mongo := if (c.mA && !c.mF) = true then rs.map (docOf u) else [],
    local_conversations := fun k =>
      if (c.rA && !c.rF) = false ∧ (c.mA && !c.mF) = false ∧ k = u then rs else [],
    now := n, nextId := if (c.mA && !c.mF) = true then n else 0 }

theorem shapeSt_nil (c : Cfg) (u : String) : shapeSt c u [] 0 = initSt c := by
  simp [shapeSt, initSt]

theorem save_shape (c : Cfg) (u um am : String) (rs : List Rec) (n : Nat) :
    save_conversation (shapeSt c u rs n) u um am
      = (true, shapeSt c u (rs ++ [⟨um, am, n⟩]) (n + 1)) := by
  cases hra : c.rA <;> cases hrf : c.rF <;> cases hma : c.mA <;> cases hmf : c.mF <;>
    · simp [save_conversation, shapeSt, local_append, hra, hrf, hma, hmf, docOf,
        Prod.ext_iff, St.mk.injEq]
      try constructor
      all_goals funext k
      all_goals by_cases hk : k = convKey u <;> by_cases hu : k = u <;>
        simp [hk, hu] <;> split <;> rfl

theorem saveTurns_shape (c : Cfg) (u : String) (msgs : List (String × String)) :
    ∀ (rs : List Rec) (n : Nat),
      saveTurns (shapeSt c u rs n) u msgs
        = shapeSt c u (rs ++ recsFrom n msgs) (n + msgs.length) := by
  induction msgs with
  | nil => intro rs n; simp [saveTurns, recsFrom]
  | cons p rest ih =>
    intro rs n
    simp only [saveTurns, save_shape]
    rw [ih]
    congr 1
    · simp [recsFrom]
    · simp [List.length_cons]; omega

theorem reverse_take_reverse {α : Type} (l : List α) (k : Nat) :
    (l.reverse.take k).reverse = l.drop (l.length - k) := by
  rw [List.take_reverse, List.reverse_reverse]

theorem insertDesc_append (d : MDoc) (m : List MDoc)
    (h : ∀ e ∈ m, d.timestamp ≤ e.timestamp) :
    insertDesc d m = m ++ [d] := by
  induction m with
  | nil => rfl
  | cons e rest ih =>
    rw [insertDesc, if_pos (h e (List.mem_cons_self e rest))]
    rw [ih (fun e' he' => h e' (List.mem_cons_of_mem e he'))]
    rfl

theorem sortDesc_pairwise (l : List MDoc)
    (h : l.Pairwise (fun a b => a.timestamp ≤ b.timestamp)) :
    sortDesc l = l.reverse := by
  induction l with
  | nil => rfl
  | cons d rest ih =>
    rw [sortDesc, ih (List.Pairwise.of_cons h)]
    rw [insertDesc_append d rest.reverse
      (fun e he => (List.pairwise_cons.mp h).1 e (List.mem_reverse.mp he))]
    rw [List.reverse_cons]

theorem recsFrom_le (n : Nat) (msgs : List (String × String)) :
    ∀ r ∈ recsFrom n msgs, n ≤ r.timestamp := by
  induction msgs generalizing n with
  | nil => intro r hr; simp [recsFrom] at hr
  | cons p rest ih =>
    intro r hr
    rw [recsFrom] at hr
    rcases List.mem_cons.mp hr with h | h
    · simp [h]
    · exact Nat.le_of_succ_le (ih (n + 1) r h)

theorem recsFrom_pairwise (n : Nat) (msgs : List (String × String)) :
    (recsFrom n msgs).Pairwise (fun a b => a.timestamp ≤ b.timestamp) := by
  induction msgs generalizing n with
  | nil => exact List.Pairwise.nil
  | cons p rest ih =>
    rw [recsFrom]
    exact List.pairwise_cons.mpr
      ⟨fun r hr => Nat.le_of_succ_le (recsFrom_le (n + 1) rest r hr), ih (n + 1)⟩

theorem recsFrom_length (n : Nat) (msgs : List (String × String)) :
    (recsFrom n msgs).length = msgs.length := by
  induction msgs generalizing n with
  | nil => rfl
  | cons p rest ih => simp [recsFrom, ih]

theorem recsFrom_drop (n j : Nat) (msgs : List (String × String)) :
    (recsFrom n msgs).drop j = recsFrom (n + j) (msgs.drop j) := by
  induction msgs generalizing n j with
  | nil => simp [recsFrom]
  | cons p rest ih =>
    cases j with
    | zero => simp [recsFrom]
    | succ j' =>
      rw [recsFrom, List.drop_succ_cons, List.drop_succ_cons, ih]
      congr 1
      omega

/-- The (user, assistant) expansion of a raw turn. -/
def msgEntries (p : String × String) : List Ctx :=
  [⟨"user", p.1⟩, ⟨"assistant", p.2⟩]

theorem historyOf_recsFrom (n : Nat) (msgs : List (String × String)) :
    historyOf (recsFrom n msgs) = msgs.flatMap msgEntries := by
  induction msgs generalizing n with
  | nil => rfl
  | cons p rest ih =>
    simp only [recsFrom, historyOf, List.flatMap_cons] at ih ⊢
    rw [ih]
    rfl

theorem historyOf_ne_nil (rs : List Rec) (h : rs ≠ []) : historyOf rs ≠ [] := by
  cases rs with
  | nil => exact absurd rfl h
  | cons r rest => simp [historyOf, pairEntries]

theorem get_context_shape (c : Cfg) (u : String) (rs : List Rec) (n k : Nat)
    (hk : 0 < k) (hkN : k ≤ rs.length)
    (hp : rs.Pairwise (fun a b => a.timestamp ≤ b.timestamp)) :
    (get_context_history (shapeSt c u rs n) u k).1
      = historyOf (rs.drop (rs.length - k)) := by
  have hk0 : ¬ k = 0 := by omega
  cases hre : (c.rA && !c.rF) with
  | true =>
    have heff : redisEff (shapeSt c u rs n) = true := by
      simp only [redisEff, shapeSt]; exact hre
    have hredis : (shapeSt c u rs n).redis (convKey u) = rs.reverse.map RVal.good := by
      simp [shapeSt, hre]
    have hdec : decodeAll (((shapeSt c u rs n).redis (convKey u)).take k)
        = some (rs.reverse.take k) := by
      rw [hredis, ← List.map_take, decodeAll_map_good]
    simp [get_context_history, redisReadRecs, hk0, heff, hdec, List.take_reverse,
      List.reverse_reverse]
  | false =>
    have heff : redisEff (shapeSt c u rs n) = false := by
      simp only [redisEff, shapeSt]; exact hre
    cases hme : (c.mA && !c.mF) with
    | false =>
      have hmeff : mongoEff (shapeSt c u rs n) = false := by
        simp only [mongoEff, shapeSt]; exact hme
      rw [get_context_fallback _ _ _ hk heff hmeff]
      have hloc : (shapeSt c u rs n).local_conversations u = rs := by
        simp [shapeSt, hre, hme]
      simp [local_get_recent, hk0, hloc]
    | true =>
      have hfilter : (rs.map (docOf u)).filter (fun d => d.user_id == u)
          = rs.map (docOf u) := by
        rw [List.filter_eq_self]
        intro d hd
        rcases List.mem_map.mp hd with ⟨r, _, rfl⟩
        simp [docOf]
      have hsort : sortDesc (rs.map (docOf u)) = (rs.map (docOf u)).reverse := by
        apply sortDesc_pairwise
        rw [List.pairwise_map]
        simpa [docOf] using hp
      have hhist : get_context_from_mongo (shapeSt c u rs n) u k
          = historyOf (rs.drop (rs.length - k)) := by
        have hm2 := hme
        simp only [Bool.and_eq_true, Bool.not_eq_true'] at hm2
        have hA : (shapeSt c u rs n).mongoAvail = true := hm2.1
        have hF : (shapeSt c u rs n).mongoOpFails = false := hm2.2
        have hmongo : (shapeSt c u rs n).mongo = rs.map (docOf u) := by
          simp [shapeSt, hme]
        simp only [get_context_from_mongo, hA, hF]
        simp only [if_true, Bool.false_eq_true, if_false]
        rw [hmongo, mongoFindRecent, hfilter, hsort, reverse_take_reverse,
          List.length_map, ← List.map_drop, List.map_map]
        congr 1
        apply List.map_id''
        intro r
        rfl
      have hne : rs.drop (rs.length - k) ≠ [] := by
        have hlen : (rs.drop (rs.length - k)).length = k := by
          rw [List.length_drop]; omega
        intro hnil
        rw [hnil] at hlen
        simp at hlen
        omega
      simp [get_context_history, redisReadRecs, hk0, heff, hhist]
      rw [if_neg (historyOf_ne_nil _ hne)]

theorem length_flatMap_msgEntries (l : List (String × String)) :
    (l.flatMap msgEntries).length = 2 * l.length := by
  induction l with
  | nil => rfl
  | cons p rest ih =>
    simp [msgEntries, List.flatMap_cons, ih]
    omega

/-- C2: saving N turns in order for one user from a fresh process, under
any constant availability configuration of the external tiers, then
reading with limit k (0 < k ≤ N), returns exactly 2k context entries:
the k most recently saved turns, oldest of that window first, each turn
expanded to its (user, assistant) pair. -/
theorem chronological_window (c : Cfg) (u : String)
    (msgs : List (String × String)) (k : Nat)
    (hk : 0 < k) (hkN : k ≤ msgs.length) :
    (get_context_history (saveTurns (initSt c) u msgs) u k).1
      = (msgs.drop (msgs.length - k)).flatMap msgEntries ∧
    ((get_context_history (saveTurns (initSt c) u msgs) u k).1).length = 2 * k := by
  have hst : saveTurns (initSt c) u msgs
      = shapeSt c u (recsFrom 0 msgs) msgs.length := by
    rw [← shapeSt_nil c u, saveTurns_shape]
    simp
  have hlen : (recsFrom 0 msgs).length = msgs.length := recsFrom_length 0 msgs
  have h1 : (get_context_history (saveTurns (initSt c) u msgs) u k).1
      = historyOf ((recsFrom 0 msgs).drop ((recsFrom 0 msgs).length - k)) := by
    rw [hst]
    exact get_context_shape c u _ _ k hk (by rw [hlen]; exact hkN)
      (recsFrom_pairwise 0 msgs)
  rw [h1, hlen, recsFrom_drop, historyOf_recsFrom]
  refine ⟨rfl, ?_⟩
  rw [length_flatMap_msgEntries, List.length_drop]
  omega

theorem chronological_window_witness :
    0 < 1 ∧ 1 ≤ ([("a", "b"), ("c", "d")] : List (String × String)).length ∧
    (get_context_history
        (saveTurns (initSt ⟨true, false, true, false⟩) "bob" [("a", "b"), ("c", "d")])
        "bob" 1).1
      = [⟨"user", "c"⟩, ⟨"assistant", "d"⟩] := by
  have h := chronological_window ⟨true, false, true, false⟩ "bob"
    [("a", "b"), ("c", "d")] 1 (by decide) (by decide)
  exact ⟨by decide, by decide, by rw [h.1]; rfl⟩

/-! ### C4: the two read paths' precedence ladders -/

/-- A state with the cache unreachable, the durable store reachable but
empty, and fallback data present for the user. -/
def stLadder : St :=
  { redisAvail := false, redisOpFails := false, mongoAvail := true,
    mongoOpFails := false, redis := fun _ => [], mongo := [],
    local_conversations := fun _ => [⟨"p", "q", 0⟩], now := 1, nextId := 0 }

/-- C4 counterexample: with the cache unreachable and the durable store
reachable but empty, `get_context_history` falls through to the
fallback store (and returns its data) while `load_recent_conversations`
answers from the durable store (returning the empty list): the two
precedence ladders disagree on whether a reachable-but-empty
durable-store result is final. -/
theorem precedence_ladders_differ_cex :
    (get_context_history stLadder "dave" 5).2 = some Tier.fallback ∧
    (load_recent_conversations stLadder "dave" 5).2 = some Tier.mongo ∧
    (get_context_history stLadder "dave" 5).1
      = [⟨"user", "p"⟩, ⟨"assistant", "q"⟩] ∧
    (load_recent_conversations stLadder "dave" 5).1 = [] :=
  ⟨rfl, rfl, rfl, rfl⟩

/-- C4 amended: `load_recent_conversations` follows the same
cache-to-durable fallthrough conditions as `get_context_history` (a
successful cache read, even empty, is final for both; an unreachable or
failing cache falls through in both), and the two agree on the
answering tier in every case except one: when the cache misses and the
durable store is reachable but returns no rows, `get_context_history`
falls through to the fallback store while `load_recent_conversations`
treats the empty durable result as final. -/
theorem precedence_ladders_agree_except_empty_mongo (st : St) (u : String) (k : Nat) :
    (get_context_history st u k).2 = (load_recent_conversations st u k).2 ∨
    (mongoFindRecent st.mongo u k = [] ∧
     (get_context_history st u k).2 = some Tier.fallback ∧
     (load_recent_conversations st u k).2 = some Tier.mongo) := by
  by_cases hk : k = 0
  · left
    simp [get_context_history, load_recent_conversations, hk]
  cases hrr : redisReadRecs st u k with
  | some rs =>
    left
    simp [get_context_history, load_recent_conversations, hk, hrr]
  | none =>
    by_cases hme : mongoEff st = true
    · have hm2 : st.mongoAvail = true ∧ st.mongoOpFails = false := by
        simpa [mongoEff, Bool.and_eq_true, Bool.not_eq_true'] using hme
      by_cases hrows : mongoFindRecent st.mongo u k = []
      · right
        have hctx0 : get_context_from_mongo st u k = [] := by
          simp [get_context_from_mongo, hm2.1, hm2.2, hrows, historyOf]
        exact ⟨hrows,
          by simp [get_context_history, hk, hrr, hctx0],
          by simp [load_recent_conversations, hk, hrr, hme]⟩
      · left
        have hctxne : get_context_from_mongo st u k ≠ [] := by
          simp only [get_context_from_mongo, hm2.1, hm2.2, if_true,
            Bool.false_eq_true, if_false]
          apply historyOf_ne_nil
          simp [hrows]
        simp [get_context_history, load_recent_conversations, hk, hrr, hme, hctxne]
    · left
      have hmf : mongoEff st = false := by
        cases h : mongoEff st
        · rfl
        · exact absurd h hme
      have hctx0 : get_context_from_mongo st u k = []
        := get_context_from_mongo_ineff st u k hmf
      simp [get_context_history, load_recent_conversations, hk, hrr, hctx0, hmf]

/-! ### C5: malformed cache records -/

theorem decodeAll_none_of_bad (l : List RVal) (h : RVal.bad ∈ l) :
    decodeAll l = none := by
  induction l with
  | nil => simp at h
  | cons a rest ih =>
    cases a with
    | bad => rfl
    | good r =>
      rcases List.mem_cons.mp h with h' | h'
      · exact absurd h' (by simp)
      · rw [decodeAll, ih h']
        rfl

/-- A state whose cache list holds one malformed record ahead of a
well-formed one, with the other tiers empty or unreachable. -/
def stCorrupt : St :=
  { redisAvail := true, redisOpFails := false, mongoAvail := false,
    mongoOpFails := false,
    redis := fun _ => [RVal.bad, RVal.good ⟨"good-msg", "good-reply", 0⟩],
    mongo := [], local_conversations := fun _ => [], now := 1, nextId := 0 }

/-- C5 counterexample: one malformed serialized record in the reachable
cache makes the whole cache read fail: the well-formed record of the
same tier is NOT returned (the result is the empty fallback answer),
contradicting per-record skipping. -/
theorem malformed_record_discards_tier_cex :
    stCorrupt.redis (convKey "erin")
      = [RVal.bad, RVal.good ⟨"good-msg", "good-reply", 0⟩] ∧
    (get_context_history stCorrupt "erin" 5).1 = [] ∧
    (get_context_history stCorrupt "erin" 5).2 = some Tier.fallback ∧
    (load_recent_conversations stCorrupt "erin" 5).1 = [] :=
  ⟨rfl, rfl, rfl, rfl⟩

/-- C5 amended: a malformed serialized record within the fetched cache
window aborts the entire cache read (`json.loads` raises inside the
tier-level `try`), so both `get_context_history` and
`load_recent_conversations` fall through to another tier; the
well-formed records of the cache are not returned individually. -/
theorem malformed_record_falls_through (st : St) (u : String) (k : Nat)
    (hbad : RVal.bad ∈ (st.redis (convKey u)).take k) :
    (get_context_history st u k).2 ≠ some Tier.redis ∧
    (load_recent_conversations st u k).2 ≠ some Tier.redis := by
  have hrr : redisReadRecs st u k = none := by
    unfold redisReadRecs
    split
    · exact decodeAll_none_of_bad _ hbad
    · rfl
  constructor
  · by_cases hk : k = 0
    · simp [get_context_history, hk]
    · simp only [get_context_history, hrr, Option.map_none']
      rw [if_neg hk]
      split <;> simp
  · by_cases hk : k = 0
    · simp [load_recent_conversations, hk]
    · simp only [load_recent_conversations, hrr, Option.map_none']
      rw [if_neg hk]
      split <;> simp

theorem malformed_record_falls_through_witness :
    RVal.bad ∈ (stCorrupt.redis (convKey "erin")).take 5 ∧
    (get_context_history stCorrupt "erin" 5).2 ≠ some Tier.redis ∧
    (load_recent_conversations stCorrupt "erin" 5).2 ≠ some Tier.redis :=
  ⟨by decide,
    (malformed_record_falls_through stCorrupt "erin" 5 (by decide)).1,
    (malformed_record_falls_through stCorrupt "erin" 5 (by decide)).2⟩

/-! ### C6: delete_last across tiers -/

/-- Whether the Redis branch of `delete_last_conversation` performs a
deletion: client obtained, no raise, and `lpop` returns an item. -/
def redisPops (st : St) (u : String) : Bool :=
  redisEff st && !(st.redis (convKey u)).isEmpty

/-- Whether the Mongo branch of `delete_last_conversation` performs a
deletion: collection obtained, no raise, and `find_one` finds a latest
document. -/
def mongoDeletes (st : St) (u : String) : Bool :=
  mongoEff st && (mongoFindLatest st.mongo u).isSome

/-- A state whose cache and fallback store each hold one entry for the
user, with the durable store unreachable. -/
def stDelete : St :=
  { redisAvail := true, redisOpFails := false, mongoAvail := false,
    mongoOpFails := false,
    redis := fun _ => [RVal.good ⟨"r1", "r2", 5⟩], mongo := [],
    local_conversations := fun _ => [⟨"l1", "l2", 3⟩], now := 6, nextId := 0 }

/-- C6 counterexample: the fallback tier has a most-recent entry, yet
`delete_last_conversation` does not remove it when the cache pop
already succeeded — the fallback deletion is not attempted
independently, contradicting "removes the most-recent entry from every
tier that has one". -/
theorem delete_last_fallback_not_independent_cex :
    stDelete.local_conversations "frank" = [⟨"l1", "l2", 3⟩] ∧
    (delete_last_conversation stDelete "frank").1 = true ∧
    ((delete_last_conversation stDelete "frank").2).local_conversations "frank"
      = [⟨"l1", "l2", 3⟩] :=
  ⟨rfl, rfl, rfl⟩

/-- C6 amended: `delete_last_conversation` attempts the cache pop and
the durable find-latest-and-delete independently of each other, but the
fallback store's most-recent entry is removed only when neither
external tier performed a deletion (and the fallback is non-empty); it
returns `True` iff at least one tier performed a deletion. -/
theorem delete_last_behavior (st : St) (u : String) :
    ((delete_last_conversation st u).1
      = (redisPops st u || mongoDeletes st u
          || !(st.local_conversations u).isEmpty)) ∧
    ((delete_last_conversation st u).2.local_conversations u
      = if (redisPops st u || mongoDeletes st u) = true
           ∨ (st.local_conversations u).isEmpty = true
        then st.local_conversations u
        else (st.local_conversations u).dropLast) ∧
    ((delete_last_conversation st u).2.redis (convKey u)
      = if redisPops st u then (st.redis (convKey u)).tail
        else st.redis (convKey u)) ∧
    ((delete_last_conversation st u).2.mongo
      = if mongoDeletes st u then
          match mongoFindLatest st.mongo u with
          | none => st.mongo
          | some d => deleteOneById st.mongo d._id
        else st.mongo) := by
  cases hra : st.redisAvail <;> cases hrf : st.redisOpFails <;>
    cases hma : st.mongoAvail <;> cases hmf : st.mongoOpFails <;>
      cases hrl : st.redis (convKey u) <;>
        cases hml : mongoFindLatest st.mongo u <;>
          cases hle : (st.local_conversations u).isEmpty <;>
            simp [delete_last_conversation, redisPops, mongoDeletes,
              redisEff, mongoEff, hra, hrf, hma, hmf, hrl, hml, hle]

/-! ### C8: operations issued on the durable store client -/

/-- An operation issued on the Mongo client by the connect/insert path
(pymongo API surface relevant here: liveness ping, document insert,
index creation). -/
inductive MongoOp where
  | ping
  | insertOne (doc : MDoc)
  | createIndex (keys : List (String × Int))
deriving DecidableEq, Repr

/-- Whether an operation is an index creation. -/
def MongoOp.isCreateIndex : MongoOp → Bool
  | MongoOp.createIndex _ => true
  | _ => false

/-- The operations `get_mongo_collection()` issues on the Mongo client:
nothing when the collection is already cached or `MONGODB_URI` is
unset; otherwise the `admin.command("ping")` liveness probe.  No other
call is made on the connect path. -/
def get_mongo_collection_ops (cached uriSet : Bool) : List MongoOp :=
  if cached then []
  else if uriSet then [MongoOp.ping] else []

/-- The Mongo operations issued by one `save_conversation` call: the
connect path of `get_mongo_collection`, then the `insert_one` whenever
a collection handle was obtained. -/
def save_conversation_mongo_ops (st : St) (cached uriSet : Bool)
    (user_id user_msg ai_msg : String) : List MongoOp :=
  get_mongo_collection_ops cached uriSet ++
    (if st.mongoAvail then
      [MongoOp.insertOne ⟨st.nextId, user_id, user_msg, ai_msg, st.now⟩]
    else [])

/-- C8 counterexample: at a concrete first-connect-and-insert call, the
operation trace of the connect/insert path contains no index-creation
operation at all — in particular none on `(user_id, timestamp desc)` —
refuting "an index-creation operation on those keys is issued". -/
theorem no_index_creation_cex :
    (get_mongo_collection_ops false true).all
        (fun op => ! op.isCreateIndex) = true ∧
    (save_conversation_mongo_ops stLadder false true "alice" "hi" "yo").all
        (fun op => ! op.isCreateIndex) = true := by
  decide

/-- C8 amended: the durable-store client never issues an index-creation
operation anywhere in its connect or insert path; the index on
`(user_id, timestamp desc)` is only expected to exist (a deployment
concern), not created by this code. -/
theorem no_index_creation (st : St) (cached uriSet : Bool) (u um am : String) :
    (get_mongo_collection_ops cached uriSet).all
        (fun op => ! op.isCreateIndex) = true ∧
    (save_conversation_mongo_ops st cached uriSet u um am).all
        (fun op => ! op.isCreateIndex) = true := by
  cases cached <;> cases uriSet <;> cases h : st.mongoAvail <;>
    simp [get_mongo_collection_ops, save_conversation_mongo_ops, h,
      MongoOp.isCreateIndex]

/-! ### C10: per-user isolation -/

theorem convKey_inj (u v : String) (h : convKey u = convKey v) : u = v := by
  unfold convKey at h
  have h2 : ("conversation:" ++ u).data = ("conversation:" ++ v).data :=
    congrArg String.data h
  simp [String.data_append] at h2
  exact String.ext h2

theorem mem_insertDesc (a d : MDoc) (m : List MDoc) :
    a ∈ insertDesc d m ↔ a = d ∨ a ∈ m := by
  induction m with
  | nil => simp [insertDesc]
  | cons e rest ih =>
    rw [insertDesc]
    split
    · rw [List.mem_cons, ih, List.mem_cons]
      tauto
    · rw [List.mem_cons, List.mem_cons]

theorem mem_sortDesc (a : MDoc) (l : List MDoc) : a ∈ sortDesc l ↔ a ∈ l := by
  induction l with
  | nil => simp [sortDesc]
  | cons d rest ih =>
    rw [sortDesc, mem_insertDesc, ih, List.mem_cons]

theorem mongoFindLatest_spec (docs : List MDoc) (u : String) (d : MDoc)
    (h : mongoFindLatest docs u = some d) : d ∈ docs ∧ d.user_id = u := by
  unfold mongoFindLatest at h
  have hmem := List.mem_of_mem_head? h
  rw [mem_sortDesc] at hmem
  have hf := List.mem_filter.mp hmem
  exact ⟨hf.1, by simpa using hf.2⟩

theorem filter_deleteOneById (docs : List MDoc) (i : Nat) (p : MDoc → Bool)
    (h : ∀ d ∈ docs, d._id = i → p d = false) :
    (deleteOneById docs i).filter p = docs.filter p := by
  induction docs with
  | nil => rfl
  | cons d rest ih =>
    rw [deleteOneById]
    by_cases hd : d._id = i
    · rw [if_pos hd, List.filter_cons, h d (List.mem_cons_self d rest) hd]
      simp
    · rw [if_neg hd, List.filter_cons, List.filter_cons,
        ih (fun d' hd' => h d' (List.mem_cons_of_mem d hd'))]

theorem save_frame (st : St) (u v : String) (huv : u ≠ v) (um am : String) :
    (save_conversation st u um am).2.redis (convKey v) = st.redis (convKey v) ∧
    (save_conversation st u um am).2.mongo.filter (fun d => d.user_id == v)
      = st.mongo.filter (fun d => d.user_id == v) ∧
    (save_conversation st u um am).2.local_conversations v
      = st.local_conversations v := by
  have hkey : ¬ convKey v = convKey u := fun h => huv (convKey_inj v u h).symm
  have hvu : ¬ v = u := fun h => huv h.symm
  have hbeq : (u == v) = false := beq_eq_false_iff_ne.mpr huv
  cases hra : st.redisAvail <;> cases hrf : st.redisOpFails <;>
    cases hma : st.mongoAvail <;> cases hmf : st.mongoOpFails <;>
      simp [save_conversation, local_append, hra, hrf, hma, hmf, hkey, hvu,
        List.filter_append, List.filter_cons, hbeq]

theorem delete_frame (st : St) (u v : String) (huv : u ≠ v)
    (hid : (st.mongo.map MDoc._id).Nodup) :
    (delete_last_conversation st u).2.redis (convKey v) = st.redis (convKey v) ∧
    (delete_last_conversation st u).2.mongo.filter (fun d => d.user_id == v)
      = st.mongo.filter (fun d => d.user_id == v) ∧
    (delete_last_conversation st u).2.local_conversations v
      = st.local_conversations v := by
  have hkey : ¬ convKey v = convKey u := fun h => huv (convKey_inj v u h).symm
  have hvu : ¬ v = u := fun h => huv h.symm
  have hdel : ∀ d, mongoFindLatest st.mongo u = some d →
      (deleteOneById st.mongo d._id).filter (fun x => x.user_id == v)
        = st.mongo.filter (fun x => x.user_id == v) := by
    intro d hml
    obtain ⟨hmem, hu⟩ := mongoFindLatest_spec st.mongo u d hml
    apply filter_deleteOneById
    intro d' hd' hi
    have hde : d' = d := List.inj_on_of_nodup_map hid hd' hmem hi
    rw [hde, hu]
    exact beq_eq_false_iff_ne.mpr huv
  cases hra : st.redisAvail <;> cases hrf : st.redisOpFails <;>
    cases hma : st.mongoAvail <;> cases hmf : st.mongoOpFails <;>
      cases hrl : st.redis (convKey u) <;>
        cases hml : mongoFindLatest st.mongo u <;>
          cases hle : (st.local_conversations u).isEmpty <;>
            simp [delete_last_conversation, hra, hrf, hma, hmf, hrl, hml, hle,
              hkey, hvu, hdel]

theorem clear_frame (st : St) (u v : String) (huv : u ≠ v) :
    (clear_all_history st u).redis (convKey v) = st.redis (convKey v) ∧
    (clear_all_history st u).mongo.filter (fun d => d.user_id == v)
      = st.mongo.filter (fun d => d.user_id == v) ∧
    (clear_all_history st u).local_conversations v = st.local_conversations v := by
  have hkey : ¬ convKey v = convKey u := fun h => huv (convKey_inj v u h).symm
  have hvu : ¬ v = u := fun h => huv h.symm
  have hff : ∀ docs : List MDoc,
      (docs.filter (fun d => !(d.user_id == u))).filter (fun d => d.user_id == v)
        = docs.filter (fun d => d.user_id == v) := by
    intro docs
    induction docs with
    | nil => rfl
    | cons d rest ih =>
      by_cases hdv : d.user_id = v
      · have h1 : (d.user_id == v) = true := beq_iff_eq.mpr hdv
        have h2 : (d.user_id == u) = false :=
          beq_eq_false_iff_ne.mpr (by rw [hdv]; exact fun h => huv h.symm)
        simp [List.filter_cons, h1, h2, ih]
      · have h1 : (d.user_id == v) = false := beq_eq_false_iff_ne.mpr hdv
        by_cases hdu : d.user_id = u
        · simp [List.filter_cons, h1, beq_iff_eq.mpr hdu, ih]
        · simp [List.filter_cons, h1, beq_eq_false_iff_ne.mpr hdu, ih]
  cases hra : st.redisAvail <;> cases hrf : st.redisOpFails <;>
    cases hma : st.mongoAvail <;> cases hmf : st.mongoOpFails <;>
      simp [clear_all_history, hra, hrf, hma, hmf, hkey, hvu, hff]

/-- C10: per-user isolation.  For distinct users `u ≠ v`, each of
`save_conversation`, `delete_last_conversation` and `clear_all_history`
invoked for `u` leaves `v`'s stored history unchanged in every tier:
`v`'s Redis list, `v`'s documents in the Mongo collection, and `v`'s
fallback-map entry.  (`hid` mirrors Mongo's guarantee that `_id`s are
unique within a collection, which the delete-by-`_id` relies on.) -/
theorem per_user_isolation (st : St) (u v : String) (huv : u ≠ v) (um am : String)
    (hid : (st.mongo.map MDoc._id).Nodup) :
    ((save_conversation st u um am).2.redis (convKey v) = st.redis (convKey v) ∧
     (save_conversation st u um am).2.mongo.filter (fun d => d.user_id == v)
       = st.mongo.filter (fun d => d.user_id == v) ∧
     (save_conversation st u um am).2.local_conversations v
       = st.local_conversations v) ∧
    ((delete_last_conversation st u).2.redis (convKey v) = st.redis (convKey v) ∧
     (delete_last_conversation st u).2.mongo.filter (fun d => d.user_id == v)
       = st.mongo.filter (fun d => d.user_id == v) ∧
     (delete_last_conversation st u).2.local_conversations v
       = st.local_conversations v) ∧
    ((clear_all_history st u).redis (convKey v) = st.redis (convKey v) ∧
     (clear_all_history st u).mongo.filter (fun d => d.user_id == v)
       = st.mongo.filter (fun d => d.user_id == v) ∧
     (clear_all_history st u).local_conversations v = st.local_conversations v) :=
  ⟨save_frame st u v huv um am, delete_frame st u v huv hid, clear_frame st u v huv⟩

/-- A state holding data for both `"alice"` and `"bob"` in every tier. -/
def stTwoUsers : St :=
  { redisAvail := true, redisOpFails := false, mongoAvail := true,
    mongoOpFails := false,
    redis := fun k => if k = convKey "bob" then [RVal.good ⟨"bm", "br", 1⟩] else [],
    mongo := [⟨0, "alice", "am", "ar", 0⟩, ⟨1, "bob", "bm", "br", 1⟩],
    local_conversations := fun k => if k = "bob" then [⟨"lb", "lr", 2⟩] else [],
    now := 3, nextId := 2 }

theorem per_user_isolation_witness :
    "alice" ≠ "bob" ∧
    (stTwoUsers.mongo.map MDoc._id).Nodup ∧
    (((save_conversation stTwoUsers "alice" "x" "y").2.redis (convKey "bob")
        = stTwoUsers.redis (convKey "bob") ∧
      (save_conversation stTwoUsers "alice" "x" "y").2.mongo.filter
          (fun d => d.user_id == "bob")
        = stTwoUsers.mongo.filter (fun d => d.user_id == "bob") ∧
      (save_conversation stTwoUsers "alice" "x" "y").2.local_conversations "bob"
        = stTwoUsers.local_conversations "bob") ∧
     ((delete_last_conversation stTwoUsers "alice").2.redis (convKey "bob")
        = stTwoUsers.redis (convKey "bob") ∧
      (delete_last_conversation stTwoUsers "alice").2.mongo.filter
          (fun d => d.user_id == "bob")
        = stTwoUsers.mongo.filter (fun d => d.user_id == "bob") ∧
      (delete_last_conversation stTwoUsers "alice").2.local_conversations "bob"
        = stTwoUsers.local_conversations "bob") ∧
     ((clear_all_history stTwoUsers "alice").redis (convKey "bob")
        = stTwoUsers.redis (convKey "bob") ∧
      (clear_all_history stTwoUsers "alice").mongo.filter
          (fun d => d.user_id == "bob")
        = stTwoUsers.mongo.filter (fun d => d.user_id == "bob") ∧
      (clear_all_history stTwoUsers "alice").local_conversations "bob"
        = stTwoUsers.local_conversations "bob")) :=
  ⟨by decide, by decide,
    per_user_isolation stTwoUsers "alice" "bob" (by decide) "x" "y" (by decide)⟩
